import Mathlib

/-!
Verification development for the `one-time-utils` repository: two small
command-line tools that turn tabular rows into Java-style enum constant
declarations.

* `csv2enum.py` (CSV tool): per row, formats `row[0]` via
  `format_as_enum_attr` and prints `IDENT("v1", "v2"),` per line.
* `enum_builder.py` (DB tool): per row, formats `row[0]` via `format_attr`
  (with configured prefix/suffix stripping) and joins
  `IDENT("v1","v2")` rows with `,\n`, ending in `;`.

Both call `constcase` from the `stringcase` library (v1.2.0), embedded
below.  Strings are modelled as `List Char`; Python's `str.lower`,
`str.upper` and the whitespace classes are modelled on their ASCII
fragment only (outside ASCII, Python also case-maps letters such as
`é`/`ß` and treats e.g. U+00A0 as whitespace).  Concrete evaluations
below use only ASCII inputs and the two case-invariant glyphs `₽`/`Р`,
where the model is exact; the one universally-quantified
identity/fixed-point statement (`c1_idempotent_on_inert`) is restricted
to printable ASCII, where the model also agrees with Python.
-/

/-- The common whitespace characters of Python's `\s` class and
`str.strip`, modelling their ASCII fragment (Python additionally matches
the controls U+001C–U+001F, U+0085 and Unicode spaces such as U+00A0;
no input below contains those). -/
def isPySpace (c : Char) : Bool :=
  c = ' ' || c = '\t' || c = '\n' || c = '\r' || c = '\x0b' || c = '\x0c'

/-- The characters `stringcase.snakecase` substitutes with `_`:
the regex class `[\-\.\s]` (with `\s` as modelled by `isPySpace`). -/
def isSepChar (c : Char) : Bool :=
  c = '-' || c = '.' || isPySpace c

def isAsciiUpper (c : Char) : Bool := 'A' ≤ c && c ≤ 'Z'

def isAsciiLower (c : Char) : Bool := 'a' ≤ c && c ≤ 'z'

/-- Python `str.lower`, modelling its ASCII fragment (Python also maps
non-ASCII cased letters; none appear in the inputs below). -/
def pyLower (c : Char) : Char :=
  if isAsciiUpper c then Char.ofNat (c.toNat + 32) else c

/-- Python `str.upper`, modelling its ASCII fragment (Python also maps
non-ASCII cased letters, e.g. `ß` to `SS`; none appear in the inputs
below). -/
def pyUpper (c : Char) : Char :=
  if isAsciiLower c then Char.ofNat (c.toNat - 32) else c

/-- `re.sub(r"[\-\.\s]", '_', s)`: first step of `stringcase.snakecase`. -/
def subSeparators (l : List Char) : List Char :=
  l.map (fun c => if isSepChar c then '_' else c)

/-- `re.sub(r"[A-Z]", lambda m: '_' + lowercase(m.group(0)), s)`:
applied by `stringcase.snakecase` to everything after the first
character. -/
def snakeTail : List Char → List Char
  | [] => []
  | c :: rest =>
    if isAsciiUpper c then '_' :: pyLower c :: snakeTail rest
    else c :: snakeTail rest

/-- `stringcase.snakecase`. -/
def snakecase (l : List Char) : List Char :=
  match subSeparators l with
  | [] => []
  | c :: rest => pyLower c :: snakeTail rest

/-- `stringcase.constcase` = `uppercase(snakecase(string))`. -/
def constcase (l : List Char) : List Char :=
  (snakecase l).map pyUpper

/-- Python `s.replace('__', '_')`: one left-to-right pass collapsing
non-overlapping pairs of underscores. -/
def pyReplaceUU : List Char → List Char
  | [] => []
  | [c] => [c]
  | c1 :: c2 :: rest =>
    if c1 = '_' && c2 = '_' then '_' :: pyReplaceUU rest
    else c1 :: pyReplaceUU (c2 :: rest)

/-- `csv2enum.remove_leading_underscore`: `s if s[0] != '_' else s[1:]`.
`none` models the `IndexError` that `s[0]` raises on the empty string. -/
def remove_leading_underscore : List Char → Option (List Char)
  | [] => none
  | c :: rest => some (if c = '_' then rest else c :: rest)

/-- `csv2enum.format_as_enum_attr`:
`remove_leading_underscore(constcase(s).replace('__', '_'))`. -/
def format_as_enum_attr (l : List Char) : Option (List Char) :=
  remove_leading_underscore (pyReplaceUU (constcase l))

/-- CSV tool formatter on `String`. -/
def formatCsv (s : String) : Option String :=
  (format_as_enum_attr s.data).map List.asString

/-- Python `str.strip` of trailing whitespace. -/
def dropTrailingSpace (l : List Char) : List Char :=
  (l.reverse.dropWhile isPySpace).reverse

/-- Python `str.strip`. -/
def pyStrip (l : List Char) : List Char :=
  dropTrailingSpace (l.dropWhile isPySpace)

/-- Python `s[-n:]` for a natural `n` (note `s[-0:]` is all of `s`). -/
def pySliceNegFrom (l : List Char) (n : Nat) : List Char :=
  if n = 0 then l else l.drop (l.length - n)

/-- Python `s[:-n]` for a natural `n` (note `s[:-0]` is empty). -/
def pySliceNegTo (l : List Char) (n : Nat) : List Char :=
  if n = 0 then [] else l.take (l.length - n)

/-- `enum_builder.format_attr` (closure over `remove_prefix` = `pre` and
`remove_suffix` = `suf` from the query configuration):
strip whitespace, drop a matching front part, drop a matching end part,
then `constcase(stripped).replace('__', '_')`.  Unlike the CSV tool it
performs no leading-underscore removal and never raises. -/
def format_attr (pre suf attr : List Char) : List Char :=
  let stripped := pyStrip attr
  let stripped2 :=
    if stripped.take pre.length = pre then stripped.drop pre.length
    else stripped
  let stripped3 :=
    if pySliceNegFrom stripped2 suf.length = suf then
      pySliceNegTo stripped2 suf.length
    else stripped2
  pyReplaceUU (constcase stripped3)

/-- DB tool formatter on `String`. -/
def formatDb (pre suf s : String) : String :=
  (format_attr pre.data suf.data s.data).asString

/-- `csv2enum.changeRubSign`: `x.replace('₽', 'Р')` (RUB sign to Cyrillic
letter, a one-to-one character substitution). -/
def changeRubSign (l : List Char) : List Char :=
  l.map (fun c => if c = '₽' then 'Р' else c)

/-- `csv2enum.quote`: `'"' + changeRubSign(x) + '"'`. -/
def csvQuote (l : List Char) : List Char :=
  '"' :: (changeRubSign l ++ ['"'])

/-- The CSV tool's per-row line,
`f'{enum_var}({", ".join([quote(x) for x in row[1:]])}),'`:
`none` models the `IndexError` on an empty row or empty name field. -/
def csvFormatRow : List (List Char) → Option (List Char)
  | [] => none
  | name :: vals =>
    (format_as_enum_attr name).map fun ident =>
      ident ++ '(' :: (List.intercalate [',', ' '] (vals.map csvQuote) ++ [')', ','])

/-- CSV row formatter on `String`s. -/
def csvFormatRowS (row : List String) : Option String :=
  (csvFormatRow (row.map String.data)).map List.asString

/-- The DB tool's value quoting inside `enum_format`:
`'"' + x + '"'` — no currency substitution. -/
def dbQuote (l : List Char) : List Char :=
  '"' :: (l ++ ['"'])

/-- `enum_builder.enum_format`:
`f'{format_attr(row[0])}({",".join(chr(34) + x + chr(34) for x in row[1:])})'`;
`none` models the index error on an empty row. -/
def enum_format (pre suf : List Char) : List (List Char) → Option (List Char)
  | [] => none
  | name :: vals =>
    some (format_attr pre suf name ++
      '(' :: (List.intercalate [','] (vals.map dbQuote) ++ [')']))

/-- DB row formatter on `String`s. -/
def enumFormatS (pre suf : String) (row : List String) : Option String :=
  (enum_format pre.data suf.data (row.map String.data)).map List.asString

/-- A Python value as it appears in the `Dbms` enum: either a plain
string or a tuple.  `POSTGRES = 'postgresql',` has a trailing comma and
is a one-element tuple; `MSSQL = 'mssql+pyodbc'` is a plain string.
(Both enum values are strings or tuples of strings, so tuples are
modelled with string elements.) -/
inductive PyVal where
  | str : String → PyVal
  | tuple : List String → PyVal
deriving DecidableEq

/-- Python `v[0]`: first element of a tuple, or the one-character string
at index 0 of a string; `none` models the `IndexError` when empty. -/
def pyGetItem0 : PyVal → Option PyVal
  | .str s => s.data.head?.map fun c => .str (String.mk [c])
  | .tuple l => l.head?.map .str

/-- `enum_builder.Dbms`. -/
inductive Dbms where
  | POSTGRES
  | MSSQL
deriving DecidableEq

/-- The member values of the `Dbms` enum as written in the source. -/
def Dbms.value : Dbms → PyVal
  | .POSTGRES => .tuple ["postgresql"]
  | .MSSQL => .str "mssql+pyodbc"

/-- `Dbms.scheme`: `self.value[0]`. -/
def Dbms.scheme (d : Dbms) : Option PyVal :=
  pyGetItem0 d.value

/-- The first key tuple of `get_dbms`'s lookup table. -/
def mssqlAliases : List String :=
  ["sql-server", "ms", "mssql", "ms-sql", "ms-sql-server", "sqlserver", "sql_server"]

/-- The second key tuple of `get_dbms`'s lookup table. -/
def pgAliases : List String :=
  ["postgres", "postgresql", "psql", "pg", "pgsql", "posgres"]

/-- `enum_builder.get_dbms`: scans the dict's key tuples in insertion
order; `none` models the `KeyError('DBMS ... not found')` raised when no
alias matches (the spec's `UnknownDbmsError`). -/
def get_dbms (dbms : String) : Option Dbms :=
  if mssqlAliases.contains dbms then some Dbms.MSSQL
  else if pgAliases.contains dbms then some Dbms.POSTGRES
  else none

/-- The f-string interpolation of the scheme value inside `format_uri`;
only the string case occurs for the two enum members. -/
def pyValAsStr : PyVal → Option String
  | .str s => some s
  | .tuple _ => none

/-- The inner `format_uri` of `enum_builder.get_uri`:
`f'{scheme}://{user}:{password}@{address}/{db}'`. -/
def format_uri (scheme user password address db : String) : String :=
  scheme ++ "://" ++ user ++ ":" ++ password ++ "@" ++ address ++ "/" ++ db

/-- `enum_builder.get_uri` on the `[database]` parameters; `none` models
the `except KeyError: exit()` path taken for an unknown alias. -/
def get_uri (dbms user password address db : String) : Option String := do
  let d ← get_dbms dbms
  let sv ← d.scheme
  let s ← pyValAsStr sv
  pure (format_uri s user password address db)

/-- `print('Wrong password! Attempts left:', attempts_left)` — `print`
joins its arguments with one space. -/
def wrongPasswordMsg (n : Nat) : String :=
  "Wrong password! Attempts left: " ++ toString n

/-- `print('Better luck next time!')`, printed before `exit()`. -/
def farewellMsg : String := "Better luck next time!"

/-- The `__main__` retry loop of `enum_builder.py`:
`attempts_left = 3; while not queried:` prompt for a password, attempt
the query; on `OperationalError` decrement `attempts_left`, print the
remaining count and loop while it is positive, otherwise print a
farewell and `exit()`.  `succeeds i` tells whether the `i`-th attempt's
query succeeds.  Returns (number of password prompts, `queried`,
the lines printed by the loop's error handling). -/
def mainLoop (succeeds : Nat → Bool) : Nat → Nat → Nat × Bool × List String
  | idx, 0 =>
    if succeeds idx then (1, true, [])
    else (1, false, [farewellMsg])
  | idx, n + 1 =>
    if succeeds idx then (1, true, [])
    else if 0 < n then
      let r := mainLoop succeeds (idx + 1) n
      (r.1 + 1, r.2.1, wrongPasswordMsg n :: r.2.2)
    else (1, false, [farewellMsg])

/-- The loop as entered by the source: `attempts_left = 3`. -/
def runRetry (succeeds : Nat → Bool) : Nat × Bool × List String :=
  mainLoop succeeds 0 3


/-- A character that the modelled `constcase` pipeline passes through
untouched: not a separator and not an ASCII letter. -/
def isInert (c : Char) : Bool :=
  !isSepChar c && !isAsciiUpper c && !isAsciiLower c

/-- A character that the real Python `constcase` pipeline passes through
untouched: printable ASCII other than space (codepoints 0x21–0x7E) and
not a letter, `-` or `.`.  On this range Python's `str.lower`,
`str.upper`, `str.strip` and the regex class `[\-\.\s]` coincide with
the ASCII models above, so statements restricted to it are faithful to
the program also outside the ASCII fragment. -/
def isInertAscii (c : Char) : Bool :=
  0x21 ≤ c.toNat && c.toNat ≤ 0x7e && !(c = '-') && !(c = '.') &&
    !isAsciiUpper c && !isAsciiLower c

/-- No two adjacent underscores anywhere in the list. -/
def noDoubleUnderscore : List Char → Bool
  | c1 :: c2 :: rest =>
    if c1 = '_' && c2 = '_' then false else noDoubleUnderscore (c2 :: rest)
  | _ => true

/-- No three adjacent underscores anywhere in the list. -/
def noTripleUnderscore : List Char → Bool
  | c1 :: c2 :: c3 :: rest =>
    if c1 = '_' && c2 = '_' && c3 = '_' then false
    else noTripleUnderscore (c2 :: c3 :: rest)
  | _ => true

theorem pyLower_eq_self (c : Char) (h : isAsciiUpper c = false) : pyLower c = c := by
  simp [pyLower, h]

theorem subSeparators_eq_self (l : List Char) (h : ∀ c ∈ l, isSepChar c = false) :
    subSeparators l = l := by
  induction l with
  | nil => rfl
  | cons c rest ih =>
    have hc : isSepChar c = false := h c (List.mem_cons_self c rest)
    simp only [subSeparators, List.map_cons, hc, Bool.false_eq_true, if_false]
    exact congrArg _ (ih fun x hx => h x (List.mem_cons_of_mem c hx))

theorem snakeTail_eq_self (l : List Char) (h : ∀ c ∈ l, isAsciiUpper c = false) :
    snakeTail l = l := by
  induction l with
  | nil => rfl
  | cons c rest ih =>
    have hc : isAsciiUpper c = false := h c (List.mem_cons_self c rest)
    simp only [snakeTail, hc, Bool.false_eq_true, if_false]
    exact congrArg _ (ih fun x hx => h x (List.mem_cons_of_mem c hx))

theorem map_pyUpper_eq_self (l : List Char) (h : ∀ c ∈ l, isAsciiLower c = false) :
    l.map pyUpper = l := by
  induction l with
  | nil => rfl
  | cons c rest ih =>
    have hc : isAsciiLower c = false := h c (List.mem_cons_self c rest)
    simp only [List.map_cons, pyUpper, hc, Bool.false_eq_true, if_false]
    exact congrArg _ (ih fun x hx => h x (List.mem_cons_of_mem c hx))

theorem pyReplaceUU_eq_self (l : List Char) (h : noDoubleUnderscore l = true) :
    pyReplaceUU l = l := by
  induction l with
  | nil => rfl
  | cons c1 t ih =>
    cases t with
    | nil => rfl
    | cons c2 rest =>
      simp only [noDoubleUnderscore] at h
      by_cases hg : (c1 = '_' && c2 = '_') = true
      · rw [if_pos hg] at h; exact absurd h (by simp)
      · rw [if_neg hg] at h
        simp only [pyReplaceUU, hg, Bool.false_eq_true, if_false]
        exact congrArg _ (ih h)

theorem constcase_eq_self (l : List Char) (hin : ∀ c ∈ l, isInert c = true) :
    constcase l = l := by
  have hsep : ∀ c ∈ l, isSepChar c = false := by
    intro c hc; have := hin c hc; simp [isInert] at this; exact this.1.1
  have hup : ∀ c ∈ l, isAsciiUpper c = false := by
    intro c hc; have := hin c hc; simp [isInert] at this; exact this.1.2
  have hlo : ∀ c ∈ l, isAsciiLower c = false := by
    intro c hc; have := hin c hc; simp [isInert] at this; exact this.2
  have hsnake : snakecase l = l := by
    unfold snakecase
    rw [subSeparators_eq_self l hsep]
    cases l with
    | nil => rfl
    | cons c rest =>
      show pyLower c :: snakeTail rest = c :: rest
      rw [pyLower_eq_self c (hup c (List.mem_cons_self c rest)),
        snakeTail_eq_self rest (fun x hx => hup x (List.mem_cons_of_mem c hx))]
  unfold constcase
  rw [hsnake, map_pyUpper_eq_self l hlo]

/-- **C1.** **Corrected.**  The claim fails: with empty `strip_prefix` and
`strip_suffix`, re-applying the CSV formatter to its own output is not the
identity, because `constcase` inserts an underscore before every
uppercase letter of the already-converted result.  Witnessed at
`s = "userName"` (non-empty, no surrounding whitespace, no leading
underscore): `format("userName") = "USER_NAME"` but
`format("USER_NAME") = "U_S_E_R_N_A_M_E"`.  The DB formatter fails the
same way. -/
theorem c1_idempotence_counterexample :
    pyStrip "userName".data = "userName".data ∧
    "userName".data.head? ≠ some '_' ∧
    formatCsv "userName" = some "USER_NAME" ∧
    formatCsv "USER_NAME" = some "U_S_E_R_N_A_M_E" ∧
    (formatCsv "userName").bind formatCsv ≠ formatCsv "userName" ∧
    formatDb "" "" (formatDb "" "" "userName") ≠ formatDb "" "" "userName" := by
  decide

theorem isInert_of_isInertAscii (c : Char) (h : isInertAscii c = true) :
    isInert c = true := by
  simp only [isInertAscii, Bool.and_eq_true, Bool.not_eq_true',
    decide_eq_false_iff_not, decide_eq_true_eq] at h
  obtain ⟨⟨⟨⟨⟨h1, h2⟩, h3⟩, h4⟩, h5⟩, h6⟩ := h
  have hsep : isSepChar c = false := by
    by_contra hx
    have hx' : isSepChar c = true := by
      revert hx; cases isSepChar c <;> simp
    simp only [isSepChar, isPySpace, Bool.or_eq_true, decide_eq_true_eq] at hx'
    rcases hx' with (h | h) | (((((h | h) | h) | h) | h) | h) <;> subst h <;>
      first
        | exact h3 rfl
        | exact h4 rfl
        | exact absurd h1 (by decide)
  simp only [isInert, Bool.and_eq_true, Bool.not_eq_true']
  exact ⟨⟨hsep, h5⟩, h6⟩

/-- **C1 (amended).**  The formatter is idempotent — indeed the identity —
on a subclass of non-empty inputs on which `constcase` acts trivially,
both in the model and in the real program: strings of printable ASCII
characters other than space (so no whitespace of any kind), with no
ASCII letters, no `-` or `.`, no two adjacent underscores, and no
leading underscore. -/
theorem c1_idempotent_on_inert (l : List Char) (hne : l ≠ [])
    (hin : ∀ c ∈ l, isInertAscii c = true)
    (hdu : noDoubleUnderscore l = true)
    (hhd : l.head? ≠ some '_') :
    format_as_enum_attr l = some l ∧
      (format_as_enum_attr l).bind format_as_enum_attr = format_as_enum_attr l := by
  have hfix : format_as_enum_attr l = some l := by
    unfold format_as_enum_attr
    rw [constcase_eq_self l (fun c hc => isInert_of_isInertAscii c (hin c hc)),
      pyReplaceUU_eq_self l hdu]
    cases l with
    | nil => exact absurd rfl hne
    | cons c rest =>
      have hc : ¬ c = '_' := by
        intro hc; exact hhd (by simp [hc])
      simp [remove_leading_underscore, hc]
  refine ⟨hfix, ?_⟩
  rw [hfix]
  show format_as_enum_attr l = some l
  exact hfix

theorem c1_witness :
    format_as_enum_attr "1_2".data = some "1_2".data ∧
      (format_as_enum_attr "1_2".data).bind format_as_enum_attr =
        format_as_enum_attr "1_2".data :=
  c1_idempotent_on_inert "1_2".data (by decide) (by decide) (by decide) (by decide)

/-- **C2.** **Corrected.**  Only the CSV tool removes a leading underscore
after conversion; the DB tool's `format_attr` returns
`constcase(stripped).replace('__', '_')` with no underscore removal, so
it maps `"_internalFlag"` to `"_INTERNAL_FLAG"`, not `"INTERNAL_FLAG"`. -/
theorem c2_db_keeps_leading_underscore :
    formatDb "" "" "_internalFlag" = "_INTERNAL_FLAG" ∧
    formatDb "" "" "_internalFlag" ≠ "INTERNAL_FLAG" := by
  decide

/-- **C2 (amended).**  `remove_leading_underscore` drops exactly one
leading underscore, so the CSV formatter maps `"_internalFlag"` to
`"INTERNAL_FLAG"`; the DB formatter applies no such removal and yields
`"_INTERNAL_FLAG"`. -/
theorem c2_leading_underscore_by_tool :
    (∀ l : List Char, remove_leading_underscore ('_' :: l) = some l) ∧
    formatCsv "_internalFlag" = some "INTERNAL_FLAG" ∧
    formatDb "" "" "_internalFlag" = "_INTERNAL_FLAG" := by
  refine ⟨fun l => ?_, by decide, by decide⟩
  simp [remove_leading_underscore]

theorem pyReplaceUU_cons_of_ne (c : Char) (r : List Char) (hc : ¬ c = '_') :
    pyReplaceUU (c :: r) = c :: pyReplaceUU r := by
  cases r with
  | nil => rfl
  | cons c2 r2 =>
    have hg : (c = '_' && c2 = '_') = false := by
      simp [hc]
    simp only [pyReplaceUU, hg, Bool.false_eq_true, if_false]

theorem noTripleUnderscore_tail (c : Char) (r : List Char)
    (h : noTripleUnderscore (c :: r) = true) : noTripleUnderscore r = true := by
  match r with
  | [] => rfl
  | [c2] => rfl
  | c2 :: c3 :: r3 =>
    simp only [noTripleUnderscore] at h
    by_cases hg : (c = '_' && c2 = '_' && c3 = '_') = true
    · rw [if_pos hg] at h; exact absurd h (by simp)
    · rw [if_neg hg] at h; exact h

theorem noDoubleUnderscore_tail (c : Char) (r : List Char)
    (h : noDoubleUnderscore (c :: r) = true) : noDoubleUnderscore r = true := by
  match r with
  | [] => rfl
  | c2 :: r2 =>
    simp only [noDoubleUnderscore] at h
    by_cases hg : (c = '_' && c2 = '_') = true
    · rw [if_pos hg] at h; exact absurd h (by simp)
    · rw [if_neg hg] at h; exact h

theorem noDoubleUnderscore_cons_of_ne (c : Char) (t : List Char) (hc : ¬ c = '_')
    (ht : noDoubleUnderscore t = true) : noDoubleUnderscore (c :: t) = true := by
  cases t with
  | nil => rfl
  | cons b r =>
    have hg : (c = '_' && b = '_') = false := by simp [hc]
    simp only [noDoubleUnderscore, hg, Bool.false_eq_true, if_false]
    exact ht

theorem noDoubleUnderscore_cons_cons_of_ne (c1 c2 : Char) (t : List Char)
    (hc2 : ¬ c2 = '_') (ht : noDoubleUnderscore (c2 :: t) = true) :
    noDoubleUnderscore (c1 :: c2 :: t) = true := by
  have hg : (c1 = '_' && c2 = '_') = false := by simp [hc2]
  simp only [noDoubleUnderscore, hg, Bool.false_eq_true, if_false]
  exact ht

theorem pyReplaceUU_noDU_aux : ∀ (n : Nat) (l : List Char), l.length ≤ n →
    noTripleUnderscore l = true → noDoubleUnderscore (pyReplaceUU l) = true := by
  intro n
  induction n with
  | zero =>
    intro l hl _
    have : l = [] := List.length_eq_zero.mp (Nat.le_zero.mp hl)
    subst this; rfl
  | succ n ih =>
    intro l hl h
    match l with
    | [] => rfl
    | [c] => rfl
    | c1 :: c2 :: rest =>
      by_cases hg : (c1 = '_' && c2 = '_') = true
      · have hc1 : c1 = '_' := by
          have := hg; simp at this; exact this.1
        have hc2 : c2 = '_' := by
          have := hg; simp at this; exact this.2
        subst hc1; subst hc2
        simp only [pyReplaceUU, if_pos (by simp : (('_' : Char) = '_' && ('_' : Char) = '_') = true)]
        match rest with
        | [] => rfl
        | c3 :: r =>
          have hc3 : ¬ c3 = '_' := by
            intro hc3; subst hc3
            simp [noTripleUnderscore] at h
          have htail : noTripleUnderscore (c3 :: r) = true :=
            noTripleUnderscore_tail _ _ (noTripleUnderscore_tail _ _ h)
          have hrec := ih (c3 :: r) (by simp at hl ⊢; omega) htail
          rw [pyReplaceUU_cons_of_ne c3 r hc3] at hrec ⊢
          exact noDoubleUnderscore_cons_cons_of_ne '_' c3 _ hc3 hrec
      · have h2 : noTripleUnderscore (c2 :: rest) = true := noTripleUnderscore_tail _ _ h
        have hrec := ih (c2 :: rest) (by simp at hl ⊢; omega) h2
        simp only [pyReplaceUU, hg, Bool.false_eq_true, if_false]
        by_cases hc2 : c2 = '_'
        · have hc1 : ¬ c1 = '_' := fun h1 => hg (by rw [h1, hc2]; decide)
          exact noDoubleUnderscore_cons_of_ne c1 _ hc1 hrec
        · rw [pyReplaceUU_cons_of_ne c2 rest hc2] at hrec ⊢
          exact noDoubleUnderscore_cons_cons_of_ne c1 c2 _ hc2 hrec

theorem pyReplaceUU_noDU (l : List Char) (h : noTripleUnderscore l = true) :
    noDoubleUnderscore (pyReplaceUU l) = true :=
  pyReplaceUU_noDU_aux l.length l (Nat.le_refl _) h

/-- **C3.** **Corrected.**  `replace('__', '_')` is a single
left-to-right pass over non-overlapping pairs, so a run of three
underscores produced by the conversion collapses only to two: the output
can contain adjacent underscores.  Witness: `format("a  B")`, where the
two spaces and the inserted word boundary yield `"A___B"` before the
replace, giving `"A__B"`. -/
theorem c3_double_underscore_counterexample :
    formatCsv "a  B" = some "A__B" ∧
    noDoubleUnderscore "A__B".data = false := by
  decide

/-- **C3 (amended).**  Each non-overlapping pair of adjacent underscores
is collapsed to one in a single pass; whenever the constant-case
conversion produces no run of three or more underscores, the CSV
formatter's output has no two adjacent underscores.  The spec's concrete
example holds: `format("  some  value  ") = "SOME_VALUE_"`, with no
double underscore. -/
theorem c3_collapse_pairs :
    formatCsv "  some  value  " = some "SOME_VALUE_" ∧
    noDoubleUnderscore "SOME_VALUE_".data = true ∧
    ∀ l t : List Char, noTripleUnderscore (constcase l) = true →
      format_as_enum_attr l = some t → noDoubleUnderscore t = true := by
  refine ⟨by decide, by decide, fun l t h1 h2 => ?_⟩
  have hm := pyReplaceUU_noDU (constcase l) h1
  unfold format_as_enum_attr at h2
  cases hmm : pyReplaceUU (constcase l) with
  | nil => rw [hmm] at h2; exact absurd h2 (by simp [remove_leading_underscore])
  | cons c r =>
    rw [hmm] at h2 hm
    simp only [remove_leading_underscore, Option.some.injEq] at h2
    by_cases hc : c = '_'
    · rw [if_pos hc] at h2; subst h2
      exact noDoubleUnderscore_tail c r hm
    · rw [if_neg hc] at h2; subst h2
      exact hm

theorem c3_witness :
    noTripleUnderscore (constcase "ab".data) = true ∧
    noDoubleUnderscore "AB".data = true :=
  ⟨by decide, c3_collapse_pairs.2.2 "ab".data "AB".data (by decide) (by decide)⟩

theorem dropWhile_dropWhile {α} (p : α → Bool) (l : List α) :
    (l.dropWhile p).dropWhile p = l.dropWhile p := by
  induction l with
  | nil => rfl
  | cons c r ih =>
    rw [List.dropWhile_cons]
    by_cases hc : p c = true
    · rw [if_pos hc]; exact ih
    · rw [if_neg hc, List.dropWhile_cons, if_neg hc]

theorem dropWhile_eq_self_of_head {α} (p : α → Bool) (c : α) (r : List α)
    (h : p c = false) : (c :: r).dropWhile p = c :: r := by
  rw [List.dropWhile_cons, if_neg (by simp [h])]

theorem head_false_of_dropWhile_eq_self {α} (p : α → Bool) (c : α) (r : List α)
    (h : (c :: r).dropWhile p = c :: r) : p c = false := by
  by_cases hc : p c = true
  · rw [List.dropWhile_cons, if_pos hc] at h
    have hlen := congrArg List.length h
    have hle := (List.dropWhile_sublist p (l := r)).length_le
    simp only [List.length_cons] at hlen
    omega
  · simpa using hc

theorem dropWhile_dropTrailingSpace (m : List Char)
    (hm : m.dropWhile isPySpace = m) :
    (dropTrailingSpace m).dropWhile isPySpace = dropTrailingSpace m := by
  have hpre : m = dropTrailingSpace m ++ (m.reverse.takeWhile isPySpace).reverse := by
    unfold dropTrailingSpace
    conv_lhs => rw [← List.reverse_reverse m,
      ← List.takeWhile_append_dropWhile isPySpace m.reverse]
    rw [List.reverse_append]
  cases hd : dropTrailingSpace m with
  | nil => rfl
  | cons c t =>
    have hs : m = c :: (t ++ (m.reverse.takeWhile isPySpace).reverse) := by
      conv_lhs => rw [hpre, hd]
      rfl
    have hc : isPySpace c = false := by
      refine head_false_of_dropWhile_eq_self isPySpace c
        (t ++ (m.reverse.takeWhile isPySpace).reverse) ?_
      rw [← hs]; exact hm
    exact dropWhile_eq_self_of_head isPySpace c t hc

theorem dropTrailingSpace_idem (l : List Char) :
    dropTrailingSpace (dropTrailingSpace l) = dropTrailingSpace l := by
  unfold dropTrailingSpace
  rw [List.reverse_reverse, dropWhile_dropWhile]

theorem pyStrip_idem (l : List Char) : pyStrip (pyStrip l) = pyStrip l := by
  unfold pyStrip
  rw [dropWhile_dropTrailingSpace _ (dropWhile_dropWhile _ l),
    dropTrailingSpace_idem]

/-- **C4.** **Corrected.**  Only the DB tool trims surrounding whitespace
first; the CSV tool applies no trim — `format_as_enum_attr` feeds the
raw field straight to `constcase`, which turns surrounding whitespace
into underscores: `format("x ") = "X_"` while `format("x") = "X"`. -/
theorem c4_csv_no_trim_counterexample :
    formatCsv "x " = some "X_" ∧
    formatCsv "x" = some "X" ∧
    formatCsv "x " ≠ formatCsv "x" := by
  decide

/-- **C4 (amended).**  The DB tool's `format_attr` strips surrounding
whitespace before prefix/suffix stripping and case conversion, so it is
invariant under pre-stripping its input; the CSV tool does not trim. -/
theorem c4_db_trims_first :
    (∀ pre suf raw : List Char,
      format_attr pre suf raw = format_attr pre suf (pyStrip raw)) ∧
    formatCsv "x " ≠ formatCsv "x" := by
  refine ⟨fun pre suf raw => ?_, by decide⟩
  unfold format_attr
  rw [pyStrip_idem]

/-- **C5.** **Corrected.**  The DB tool's `enum_format` joins quoted
values with `,` (no space) and appends nothing, but the CSV tool's row
loop joins with `', '` (comma and space) and appends a trailing comma of
its own, so the two row formatters do not produce the same
`IDENT(V1,V2,...)` shape. -/
theorem c5_csv_join_counterexample :
    csvFormatRowS ["statusActive", "A", "Active status"] =
      some "STATUS_ACTIVE(\"A\", \"Active status\")," ∧
    csvFormatRowS ["statusActive", "A", "Active status"] ≠
      some "STATUS_ACTIVE(\"A\",\"Active status\")" := by
  decide

/-- **C5 (amended).**  The DB tool's row formatter produces exactly
`IDENT(V1,V2,...)` — comma with no space, no trailing comma or newline,
last character `)` — while the CSV tool's row line joins with `', '` and
ends in the trailing comma it appends itself. -/
theorem c5_row_shapes_by_tool :
    enumFormatS "" "" ["statusActive", "A", "Active status"] =
      some "STATUS_ACTIVE(\"A\",\"Active status\")" ∧
    csvFormatRowS ["statusActive", "A", "Active status"] =
      some "STATUS_ACTIVE(\"A\", \"Active status\")," ∧
    (∀ pre suf row t, enum_format pre suf row = some t →
      t.getLast? = some ')') ∧
    (∀ row t, csvFormatRow row = some t → t.getLast? = some ',') := by
  refine ⟨by decide, by decide, fun pre suf row t h => ?_, fun row t h => ?_⟩
  · cases row with
    | nil => exact absurd h (by simp [enum_format])
    | cons name vals =>
      simp only [enum_format, Option.some.injEq] at h
      subst h
      rw [List.getLast?_append_of_ne_nil _ (by simp)]
      show (['('] ++ (List.intercalate [','] (vals.map dbQuote) ++ [')'])).getLast? = some ')'
      rw [List.getLast?_append_of_ne_nil _ (by simp),
        List.getLast?_append_of_ne_nil _ (by simp)]
      rfl
  · cases row with
    | nil => exact absurd h (by simp [csvFormatRow])
    | cons name vals =>
      simp only [csvFormatRow, Option.map_eq_some'] at h
      obtain ⟨ident, _, h⟩ := h
      subst h
      rw [List.getLast?_append_of_ne_nil _ (by simp)]
      show (['('] ++ (List.intercalate [',', ' '] (vals.map csvQuote) ++ [')', ','])).getLast? =
        some ','
      rw [List.getLast?_append_of_ne_nil _ (by simp),
        List.getLast?_append_of_ne_nil _ (by simp)]
      rfl

theorem c5_witness :
    ("X(\"a\")".data).getLast? = some ')' ∧ ("X(\"a\"),".data).getLast? = some ',' :=
  ⟨c5_row_shapes_by_tool.2.2.1 [] [] ["x".data, "a".data] "X(\"a\")".data (by decide),
   c5_row_shapes_by_tool.2.2.2 ["x".data, "a".data] "X(\"a\"),".data (by decide)⟩

/-- **C6.** **Corrected.**  Only the CSV tool's `quote` applies the
`₽ → Р` substitution; the DB tool's `enum_format` quotes the raw value,
so `"100₽"` keeps its RUB sign in the DB output. -/
theorem c6_db_no_substitution_counterexample :
    enumFormatS "" "" ["x", "100₽"] = some "X(\"100₽\")" ∧
    enumFormatS "" "" ["x", "100₽"] ≠ some "X(\"100Р\")" := by
  decide

/-- **C6 (amended).**  The CSV tool wraps each value field in double
quotes and replaces the RUB sign with the Cyrillic letter (a one-to-one,
length-preserving substitution): `quote("100₽") = "\x22100Р\x22"`.  The
DB tool only quotes, leaving `₽` in place. -/
theorem c6_rub_substitution_by_tool :
    (∀ l : List Char, (changeRubSign l).length = l.length) ∧
    csvQuote "100₽".data = "\"100Р\"".data ∧
    enumFormatS "" "" ["x", "100₽"] = some "X(\"100₽\")" := by
  refine ⟨fun l => ?_, by decide, by decide⟩
  simp [changeRubSign]

theorem pyReplaceUU_ne_nil (c : Char) (r : List Char) : pyReplaceUU (c :: r) ≠ [] := by
  cases r with
  | nil => simp [pyReplaceUU]
  | cons c2 r2 =>
    simp only [pyReplaceUU]
    split <;> simp

/-- **C7.** **Corrected.**  The DB tool's `format_attr` never raises: on
an empty input, or an input that prefix/suffix stripping empties, it
returns the empty string (`constcase('') = ''`), contradicting the
claimed error.  No `InvalidIdentifierSource` exists in the code; the CSV
tool's failure on empty input is a plain `IndexError` from `s[0]`. -/
theorem c7_db_empty_returns_counterexample :
    format_attr [] [] [] = [] ∧
    format_attr "ab".data [] "ab".data = [] := by
  decide

/-- **C7 (amended).**  The CSV formatter fails (an index error, modelled
as `none`) exactly on the empty input — `constcase` of a non-empty
string is non-empty, so `remove_leading_underscore` only ever indexes an
empty string when the input itself is empty.  The DB formatter is total:
on empty input, or input emptied by prefix stripping, it returns `""`. -/
theorem c7_error_behavior :
    (∀ l : List Char, format_as_enum_attr l = none ↔ l = []) ∧
    format_attr [] [] [] = [] ∧
    format_attr "ab".data [] "ab".data = [] := by
  refine ⟨fun l => ?_, by decide, by decide⟩
  cases l with
  | nil => exact ⟨fun _ => rfl, fun _ => rfl⟩
  | cons c r =>
    constructor
    · intro h
      exfalso
      have hcc : constcase (c :: r) =
          pyUpper (pyLower (if isSepChar c then '_' else c)) ::
            (snakeTail (subSeparators r)).map pyUpper := rfl
      unfold format_as_enum_attr at h
      rw [hcc] at h
      cases hrr : pyReplaceUU (pyUpper (pyLower (if isSepChar c then '_' else c)) ::
          (snakeTail (subSeparators r)).map pyUpper) with
      | nil => exact pyReplaceUU_ne_nil _ _ hrr
      | cons y ys =>
        rw [hrr] at h
        simp [remove_leading_underscore] at h
    · intro h
      exact absurd h (by simp)

/-- **C8.** **Confirmed.**  `get_dbms` resolves `"pg"`, `"postgres"` and
`"psql"` to `Dbms.POSTGRES`, whose scheme is the full string
`"postgresql"`, and yields the `KeyError` path (the spec's
`UnknownDbmsError`, modelled as `none`) for `"nosuchdb"`. -/
theorem c8_alias_resolution :
    get_dbms "pg" = some Dbms.POSTGRES ∧
    get_dbms "postgres" = some Dbms.POSTGRES ∧
    get_dbms "psql" = some Dbms.POSTGRES ∧
    Dbms.POSTGRES.scheme = some (PyVal.str "postgresql") ∧
    get_dbms "nosuchdb" = none := by
  decide

theorem mainLoop_prompts_le (f : Nat → Bool) :
    ∀ n : Nat, 1 ≤ n → ∀ idx, (mainLoop f idx n).1 ≤ n := by
  intro n
  induction n with
  | zero => intro h; exact absurd h (by omega)
  | succ n ih =>
    intro _ idx
    by_cases hs : f idx = true
    · simp [mainLoop, hs]
    · by_cases hn : 0 < n
      · have h1 := ih hn (idx + 1)
        simp only [mainLoop, hs, Bool.false_eq_true, if_false, hn, if_true]
        omega
      · simp [mainLoop, hs, hn]

/-- **C9.** **Confirmed.**  The `__main__` retry loop starts with
`attempts_left = 3`; it prompts at most 3 times for any pattern of
authentication outcomes, and when all three attempts fail it prompts
exactly 3 times, prints the two countdown lines and the farewell
message, and terminates without a fourth attempt. -/
theorem c9_retry_bounded (f : Nat → Bool) :
    (runRetry f).1 ≤ 3 ∧
    ((∀ i, i < 3 → f i = false) →
      runRetry f =
        (3, false, [wrongPasswordMsg 2, wrongPasswordMsg 1, farewellMsg])) := by
  constructor
  · exact mainLoop_prompts_le f 3 (by omega) 0
  · intro h
    have h0 := h 0 (by omega)
    have h1 := h 1 (by omega)
    have h2 := h 2 (by omega)
    simp [runRetry, mainLoop, h0, h1, h2]

theorem c9_witness :
    runRetry (fun _ => false) =
      (3, false, [wrongPasswordMsg 2, wrongPasswordMsg 1, farewellMsg]) :=
  (c9_retry_bounded (fun _ => false)).2 (by decide)

/-- **C10.** **Confirmed.**  `POSTGRES = 'postgresql',` is a one-element
tuple, so `value[0]` is the full string `"postgresql"`, while
`MSSQL = 'mssql+pyodbc'` is a plain string, so `value[0]` is its first
character `"m"`; hence every SQL Server alias produces a connection URI
with scheme `m`. -/
theorem c10_mssql_scheme_is_m :
    Dbms.value Dbms.POSTGRES = PyVal.tuple ["postgresql"] ∧
    Dbms.value Dbms.MSSQL = PyVal.str "mssql+pyodbc" ∧
    Dbms.POSTGRES.scheme = some (PyVal.str "postgresql") ∧
    Dbms.MSSQL.scheme = some (PyVal.str "m") ∧
    (∀ a ∈ mssqlAliases, ∀ u p ad db, get_uri a u p ad db =
      some (format_uri "m" u p ad db)) := by
  refine ⟨rfl, rfl, by decide, by decide, fun a ha u p ad db => ?_⟩
  have hd : get_dbms a = some Dbms.MSSQL := by
    unfold get_dbms
    rw [if_pos (by simpa using ha)]
  simp [get_uri, hd, Dbms.scheme, Dbms.value, pyGetItem0, pyValAsStr]

theorem c10_witness :
    get_uri "mssql" "u" "p" "h" "d" = some (format_uri "m" "u" "p" "h" "d") :=
  c10_mssql_scheme_is_m.2.2.2.2 "mssql" (by decide) "u" "p" "h" "d"
